import Mathlib

/-!
Shallow embedding of `pkg/operator/encryption/encryptionconfig/config.go`:
the bidirectional translator between the API server wire encryption
configuration and the operator's per-resource key-state model.

The wire schema (`apiserverconfigv1`), the key-state package (`state`),
the secrets collaborator (`secrets`) and the group-resource identifiers
(`schema`) are external to the translated source file; they are modelled
from the specification, as marked on each definition.
-/

/-- Modelled from the spec: a wire key is an identifier (name) paired with
an opaque encoded secret value (`apiserverconfigv1.Key`). -/
structure Key where
  Name : String
  Secret : String
deriving DecidableEq

/-- Modelled from the spec: an AES provider entry carrying an ordered key
list (`apiserverconfigv1.AESConfiguration`, used for both AESCBC and AESGCM). -/
structure AESConfiguration where
  Keys : List Key
deriving DecidableEq

/-- Modelled from the spec: a Secretbox provider entry carrying an ordered
key list (`apiserverconfigv1.SecretboxConfiguration`). -/
structure SecretboxConfiguration where
  Keys : List Key
deriving DecidableEq

/-- Modelled from the spec: the bare no-op placeholder provider entry
(`apiserverconfigv1.IdentityConfiguration`); it carries no key. -/
structure IdentityConfiguration where
deriving DecidableEq

/-- Modelled from the spec: a wire provider entry is one of the recognized
variants, encoded as four optional fields of which the populated one
determines the variant (`apiserverconfigv1.ProviderConfiguration`). -/
structure ProviderConfiguration where
  AESCBC : Option AESConfiguration := none
  Secretbox : Option SecretboxConfiguration := none
  Identity : Option IdentityConfiguration := none
  AESGCM : Option AESConfiguration := none
deriving DecidableEq

/-- Modelled from the spec: a wire resource entry names a list of resources
and holds an ordered provider list (`apiserverconfigv1.ResourceConfiguration`). -/
structure ResourceConfiguration where
  Resources : List String
  Providers : List ProviderConfiguration
deriving DecidableEq

/-- Modelled from the spec: the wire configuration is an ordered list of
resource entries (`apiserverconfigv1.EncryptionConfiguration`). -/
structure EncryptionConfiguration where
  Resources : List ResourceConfiguration
deriving DecidableEq

namespace state

/-- Modelled from the spec: `state.Mode` is a string tag; the valid values
are the three constants below, Identity meaning "no real encryption". -/
abbrev Mode := String

/-- Modelled from the spec: the AESCBC mode tag. -/
def AESCBC : Mode := "aescbc"

/-- Modelled from the spec: the SecretBox mode tag. -/
def SecretBox : Mode := "secretbox"

/-- Modelled from the spec: the Identity (no-op) mode tag. -/
def Identity : Mode := "identity"

/-- Modelled from the spec: `state.KeyState` is a key together with its
mode and whether it is corroborated by a persisted key record (`Backed`). -/
structure KeyState where
  Key : Key
  Backed : Bool := false
  Mode : Mode := ""
deriving DecidableEq

/-- The zero value of `KeyState` (Go's zero struct). -/
def zeroKeyState : KeyState :=
  { Key := { Name := "", Secret := "" }, Backed := false, Mode := "" }

/-- Modelled from the spec: `state.GroupResourceState` holds the optional
write key and the ordered read keys of one resource. -/
structure GroupResourceState where
  WriteKey : KeyState := zeroKeyState
  ReadKeys : List KeyState := []
deriving DecidableEq

/-- Modelled from the spec: `HasWriteKey` is true iff the write key is a
non-zero `KeyState`. -/
def GroupResourceState.HasWriteKey (s : GroupResourceState) : Bool :=
  decide (s.WriteKey ≠ zeroKeyState)

/-- Modelled from the spec: `state.EqualKeyAndEqualID` — two key states are
the same key iff their key identifiers and secret values match exactly,
regardless of `Backed` or `Mode` bookkeeping differences. -/
def EqualKeyAndEqualID (s1 s2 : KeyState) : Bool :=
  decide (s1.Key = s2.Key)

/-- Modelled from the spec: key identifiers are orderable so that "more
recent" is well defined; `recentFirst a b` means `a` is at least as recent
as `b` (descending identifier order). -/
def recentFirst (a b : KeyState) : Prop :=
  b.Key.Name ≤ a.Key.Name

instance : DecidableRel recentFirst :=
  fun a b => inferInstanceAs (Decidable (b.Key.Name ≤ a.Key.Name))

instance : IsTotal KeyState recentFirst :=
  ⟨fun a b => (le_total b.Key.Name a.Key.Name).imp id id⟩

instance : IsTrans KeyState recentFirst :=
  ⟨fun _ _ _ h1 h2 => le_trans h2 h1⟩

/-- Modelled from the spec: `state.SortRecentFirst` sorts key states most
recent first. -/
def SortRecentFirst (l : List KeyState) : List KeyState :=
  List.insertionSort recentFirst l

end state

namespace schema

/-- Modelled from the spec: `schema.GroupResource` is an API group plus a
resource name. -/
structure GroupResource where
  Group : String
  Resource : String
deriving DecidableEq

/-- Splits a character list at the first dot, if any. -/
def splitAtFirstDot : List Char → Option (List Char × List Char)
  | [] => none
  | c :: cs =>
    if c = '.' then some ([], cs)
    else
      match splitAtFirstDot cs with
      | none => none
      | some (a, b) => some (c :: a, b)

/-- Modelled from the spec: `GroupResource.String()` renders `resource` for
an empty group and `resource.group` otherwise. -/
def GroupResource.toString (gr : GroupResource) : String :=
  if gr.Group = "" then gr.Resource else gr.Resource ++ "." ++ gr.Group

/-- Modelled from the spec: `schema.ParseGroupResource` splits the
identifier at its first dot into resource and group. -/
def ParseGroupResource (s : String) : GroupResource :=
  match splitAtFirstDot s.toList with
  | none => { Group := "", Resource := s }
  | some (r, g) => { Group := String.mk g, Resource := String.mk r }

end schema

namespace secrets

/-- Modelled from the spec: a persisted key record is an opaque external
object that either decodes to a key state or fails to parse. -/
inductive Secret where
  | valid (k : state.KeyState)
  | invalid (msg : String)
deriving DecidableEq

/-- Modelled from the spec: `secrets.ToKeyState` decodes a persisted key
record into a key state, or fails on a malformed record. -/
def ToKeyState : Secret → Except String state.KeyState
  | .valid k => .ok k
  | .invalid m => .error m

end secrets

/-- Modelled from the spec: the fixed, publicly known sentinel secret value
(`emptyStaticIdentityKey`), the base64 encoding of the all-zero identity
key, derived once and reused as a constant. -/
def emptyStaticIdentityKey : String :=
  "AAAAAAAAAAAAAAAAAAAAAAAAAAAAAAAAAAAAAAAAAAA="

/-- The no-op (identity) placeholder provider entry used by the encoder. -/
def identityProviderConf : ProviderConfiguration :=
  { Identity := some ⟨⟩ }

/-- Classification of one wire provider entry by the decoder's `switch`:
a single-key AESCBC or Secretbox provider maps to its mode; the no-op
placeholder and any invalid shape are skipped (`none`); a single-key AESGCM
provider whose secret equals the sentinel is reclassified as Identity. -/
def classifyProvider (p : ProviderConfiguration) : Option state.KeyState :=
  match p with
  | ⟨some ⟨[k]⟩, _, _, _⟩ => some { Key := k, Backed := false, Mode := state.AESCBC }
  | ⟨_, some ⟨[k]⟩, _, _⟩ => some { Key := k, Backed := false, Mode := state.SecretBox }
  | ⟨_, _, some _, _⟩ => none
  | ⟨_, _, _, some ⟨[k]⟩⟩ =>
    if k.Secret = emptyStaticIdentityKey then
      some { Key := k, Backed := false, Mode := state.Identity }
    else none
  | _ => none

/-- The decoder's enrichment step: replace a decoded key state by the first
backed key state with the same key identity, if any. -/
def enrichFromBacked (backedKeys : List state.KeyState) (ks : state.KeyState) :
    state.KeyState :=
  match backedKeys.find? (fun k => state.EqualKeyAndEqualID ks k) with
  | some k => k
  | none => ks

/-- The decoder's provider loop (`for i, provider := range resourceConfig.Providers`):
classifies each provider, enriches it from the backed keys, determines the
write key, and appends every decoded key to the read keys. -/
def processProviders (backedKeys : List state.KeyState) :
    List ProviderConfiguration → Nat → state.GroupResourceState →
    state.GroupResourceState
  | [], _, grState => grState
  | p :: rest, i, grState =>
    match classifyProvider p with
    | none => processProviders backedKeys rest (i + 1) grState
    | some ks0 =>
      let ks := enrichFromBacked backedKeys ks0
      let grState1 :=
        if i = 0 ∨ (ks.Mode = state.Identity ∧ grState.HasWriteKey = false) then
          { grState with WriteKey := ks }
        else grState
      processProviders backedKeys rest (i + 1)
        { grState1 with ReadKeys := grState1.ReadKeys ++ [ks] }

/-- Go map assignment `m[k] = v`: overwrite the entry for `k` if present,
otherwise add it. -/
def mapInsert (m : List (schema.GroupResource × state.GroupResourceState))
    (k : schema.GroupResource) (v : state.GroupResourceState) :
    List (schema.GroupResource × state.GroupResourceState) :=
  match m with
  | [] => [(k, v)]
  | (k', v') :: rest =>
    if k' = k then (k, v) :: rest else (k', v') :: mapInsert rest k v

/-- Go map lookup `m[k]`. -/
def mapLookup (m : List (schema.GroupResource × state.GroupResourceState))
    (k : schema.GroupResource) : Option state.GroupResourceState :=
  match m with
  | [] => none
  | (k', v') :: rest => if k' = k then some v' else mapLookup rest k

/-- The backed-key normalization at the head of `ToEncryptionState`:
parseable records become key states with `Backed := true`, records that
fail to parse are skipped, and the result is sorted most recent first. -/
def backedKeysOf (keySecrets : List secrets.Secret) : List state.KeyState :=
  state.SortRecentFirst (keySecrets.filterMap fun s =>
    match secrets.ToKeyState s with
    | .error _ => none
    | .ok km => some { km with Backed := true })

/-- `ToEncryptionState` converts config to state: it normalizes the
persisted key records into sorted backed keys, returns early on an absent
config, and otherwise decodes every valid resource entry (exactly one
resource name) through the provider loop, sorting each resource's read
keys most recent first. -/
def ToEncryptionState (encryptionConfig : Option EncryptionConfiguration)
    (keySecrets : List secrets.Secret) :
    List (schema.GroupResource × state.GroupResourceState) × List state.KeyState :=
  let backedKeys := backedKeysOf keySecrets
  match encryptionConfig with
  | none => ([], backedKeys)
  | some cfg =>
    let out := cfg.Resources.foldl
      (fun out rc =>
        if rc.Resources.length ≠ 1 then out
        else
          let grState := processProviders backedKeys rc.Providers 0 {}
          let grState2 :=
            { grState with ReadKeys := state.SortRecentFirst grState.ReadKeys }
          mapInsert out (schema.ParseGroupResource (rc.Resources.headD "")) grState2)
      []
    (out, backedKeys)

/-- The encoder's write-key dedup (`for i := 1; i < len(allKeys); i++`):
remove the first later occurrence of the write key's identity. -/
def eraseFirstKeyMatch : List state.KeyState → state.KeyState → List state.KeyState
  | [], _ => []
  | k :: rest, w =>
    if state.EqualKeyAndEqualID k w then rest
    else k :: eraseFirstKeyMatch rest w

/-- The key sequence `allKeys` that `stateToProviders` walks: the read keys,
with the write key (when present) moved to the front and its first later
duplicate removed. -/
def encodeAllKeys (desired : state.GroupResourceState) : List state.KeyState :=
  if desired.HasWriteKey then
    desired.WriteKey :: eraseFirstKeyMatch desired.ReadKeys desired.WriteKey
  else desired.ReadKeys

/-- The encoder's main loop over `allKeys`: returns the main provider list
and the queued sentinel AESGCM providers. AESCBC/SecretBox keys become
providers of the matching variant; an Identity key at position 0 emits a
leading no-op placeholder, and every Identity key queues a sentinel AESGCM
provider carrying its key; keys with any other mode are skipped. -/
def providersLoop : List state.KeyState → Nat →
    List ProviderConfiguration × List ProviderConfiguration
  | [], _ => ([], [])
  | key :: rest, i =>
    let r := providersLoop rest (i + 1)
    if key.Mode = state.AESCBC then
      ({ AESCBC := some ⟨[key.Key]⟩ } :: r.1, r.2)
    else if key.Mode = state.SecretBox then
      ({ Secretbox := some ⟨[key.Key]⟩ } :: r.1, r.2)
    else if key.Mode = state.Identity then
      ((if i = 0 then [identityProviderConf] else []) ++ r.1,
        { AESGCM := some ⟨[key.Key]⟩ } :: r.2)
    else
      (r.1, r.2)

/-- `stateToProviders` maps one resource's key state to its wire provider
list: the write key first (or a leading no-op placeholder when there is no
write key), then the remaining keys, a fallback no-op placeholder when the
first provider is not one, and the queued sentinel AESGCM providers last.
Returns `none` where the Go code panics (`providers[0]` on an empty slice). -/
def stateToProviders (desired : state.GroupResourceState) :
    Option (List ProviderConfiguration) :=
  let allKeys := encodeAllKeys desired
  let pre : List ProviderConfiguration :=
    if desired.HasWriteKey then [] else [identityProviderConf]
  let (main, aesgcmProviders) := providersLoop allKeys 0
  let providers := pre ++ main
  match providers with
  | [] => none
  | p0 :: _ =>
    let providers2 :=
      if p0.Identity = none then providers ++ [identityProviderConf] else providers
    some (providers2 ++ aesgcmProviders)

/-- The per-entry body of `FromEncryptionState`: one wire resource entry per
map entry, each naming exactly that resource; `none` propagates a panic of
`stateToProviders`. -/
def resourceConfigsOf :
    List (schema.GroupResource × state.GroupResourceState) →
    Option (List ResourceConfiguration)
  | [] => some []
  | (gr, grKeys) :: rest =>
    match stateToProviders grKeys, resourceConfigsOf rest with
    | some ps, some rcs =>
      some ({ Resources := [gr.toString], Providers := ps } :: rcs)
    | _, _ => none

/-- The output-stability comparator of `FromEncryptionState`'s `sort.Slice`:
resource entries are ordered by their single resource identifier string. -/
def resourceLE (a b : ResourceConfiguration) : Prop :=
  a.Resources.headD "" ≤ b.Resources.headD ""

instance : DecidableRel resourceLE :=
  fun a b => inferInstanceAs (Decidable (a.Resources.headD "" ≤ b.Resources.headD ""))

instance : IsTotal ResourceConfiguration resourceLE :=
  ⟨fun a b => (le_total (a.Resources.headD "") (b.Resources.headD "")).imp id id⟩

instance : IsTrans ResourceConfiguration resourceLE :=
  ⟨fun _ _ _ h1 h2 => le_trans h1 h2⟩

/-- `FromEncryptionState` converts state to config: one resource entry per
map entry, sorted by resource identifier for stable output. `none` models a
panic inside `stateToProviders`. -/
def FromEncryptionState
    (encryptionState : List (schema.GroupResource × state.GroupResourceState)) :
    Option EncryptionConfiguration :=
  (resourceConfigsOf encryptionState).map fun rcs =>
    { Resources := List.insertionSort resourceLE rcs }

/-! ### Basic lemmas about the decoder loop -/

/-- The sequence of key states the decoder derives from a provider list:
classification followed by enrichment, skipped providers dropped. -/
def decodedKeys (backedKeys : List state.KeyState)
    (ps : List ProviderConfiguration) : List state.KeyState :=
  ps.filterMap fun p => (classifyProvider p).map (enrichFromBacked backedKeys)

theorem hasWriteKey_mk (w : state.KeyState) (l : List state.KeyState) :
    state.GroupResourceState.HasWriteKey { WriteKey := w, ReadKeys := l } =
      decide (w ≠ state.zeroKeyState) := rfl

theorem hasWriteKey_readKeys (g : state.GroupResourceState) (l : List state.KeyState) :
    state.GroupResourceState.HasWriteKey { g with ReadKeys := l } =
      state.GroupResourceState.HasWriteKey g := rfl

theorem enrichFromBacked_nil (ks : state.KeyState) :
    enrichFromBacked [] ks = ks := rfl

theorem decodedKeys_nil_backed (ps : List ProviderConfiguration) :
    decodedKeys [] ps = ps.filterMap classifyProvider := by
  unfold decodedKeys
  induction ps with
  | nil => rfl
  | cons p rest ih =>
    simp only [List.filterMap_cons]
    cases classifyProvider p <;> simp [enrichFromBacked_nil, ih]

theorem decodedKeys_cons_none (bk : List state.KeyState)
    (p : ProviderConfiguration) (ps : List ProviderConfiguration)
    (h : classifyProvider p = none) :
    decodedKeys bk (p :: ps) = decodedKeys bk ps := by
  simp [decodedKeys, List.filterMap_cons, h]

theorem decodedKeys_cons_some (bk : List state.KeyState)
    (p : ProviderConfiguration) (ps : List ProviderConfiguration)
    (ks : state.KeyState) (h : classifyProvider p = some ks) :
    decodedKeys bk (p :: ps) = enrichFromBacked bk ks :: decodedKeys bk ps := by
  simp [decodedKeys, List.filterMap_cons, h]

theorem processProviders_readKeys (bk : List state.KeyState) :
    ∀ (ps : List ProviderConfiguration) (i : Nat) (g : state.GroupResourceState),
      (processProviders bk ps i g).ReadKeys = g.ReadKeys ++ decodedKeys bk ps
  | [], i, g => by simp [processProviders, decodedKeys]
  | p :: rest, i, g => by
    rw [processProviders]
    cases hp : classifyProvider p with
    | none =>
      rw [processProviders_readKeys bk rest (i + 1) g, decodedKeys_cons_none bk p rest hp]
    | some ks0 =>
      rw [processProviders_readKeys bk rest (i + 1)]
      rw [decodedKeys_cons_some bk p rest ks0 hp]
      simp only []
      split <;> simp

theorem processProviders_append (bk : List state.KeyState) :
    ∀ (ps qs : List ProviderConfiguration) (i : Nat) (g : state.GroupResourceState),
      processProviders bk (ps ++ qs) i g =
        processProviders bk qs (i + ps.length) (processProviders bk ps i g)
  | [], qs, i, g => by simp [processProviders]
  | p :: rest, qs, i, g => by
    have harith : i + (p :: rest).length = (i + 1) + rest.length := by
      simp only [List.length_cons]; omega
    rw [List.cons_append, processProviders, processProviders, harith]
    cases hp : classifyProvider p with
    | none => exact processProviders_append bk rest qs (i + 1) g
    | some ks0 =>
      simp only []
      exact processProviders_append bk rest qs (i + 1) _

theorem processProviders_writeKey_stable (bk : List state.KeyState) :
    ∀ (ps : List ProviderConfiguration) (i : Nat) (g : state.GroupResourceState),
      g.HasWriteKey = true → 1 ≤ i →
      (processProviders bk ps i g).WriteKey = g.WriteKey ∧
        (processProviders bk ps i g).HasWriteKey = true
  | [], i, g, hw, hi => by simp [processProviders, hw]
  | p :: rest, i, g, hw, hi => by
    rw [processProviders]
    cases hp : classifyProvider p with
    | none => exact processProviders_writeKey_stable bk rest (i + 1) g hw (by omega)
    | some ks0 =>
      simp only []
      have hcond : ¬ (i = 0 ∨ ((enrichFromBacked bk ks0).Mode = state.Identity ∧
          g.HasWriteKey = false)) := by
        rintro (h0 | ⟨_, hfalse⟩)
        · omega
        · rw [hw] at hfalse; exact Bool.noConfusion hfalse
      rw [if_neg hcond]
      have hg' : state.GroupResourceState.HasWriteKey
          { g with ReadKeys := g.ReadKeys ++ [enrichFromBacked bk ks0] } = true := by
        rw [hasWriteKey_readKeys]; exact hw
      have := processProviders_writeKey_stable bk rest (i + 1)
        { g with ReadKeys := g.ReadKeys ++ [enrichFromBacked bk ks0] } hg' (by omega)
      exact ⟨this.1, this.2⟩

/-! ### Classification facts -/

theorem classifyProvider_aescbc (k : Key) :
    classifyProvider { AESCBC := some ⟨[k]⟩ } =
      some { Key := k, Backed := false, Mode := state.AESCBC } := rfl

theorem classifyProvider_secretbox (k : Key) :
    classifyProvider { Secretbox := some ⟨[k]⟩ } =
      some { Key := k, Backed := false, Mode := state.SecretBox } := rfl

theorem classifyProvider_identityConf :
    classifyProvider identityProviderConf = none := rfl

theorem classifyProvider_aesgcm_sentinel (k : Key)
    (h : k.Secret = emptyStaticIdentityKey) :
    classifyProvider { AESGCM := some ⟨[k]⟩ } =
      some { Key := k, Backed := false, Mode := state.Identity } := by
  simp [classifyProvider, h]

theorem classifyProvider_aesgcm_other (k : Key)
    (h : k.Secret ≠ emptyStaticIdentityKey) :
    classifyProvider { AESGCM := some ⟨[k]⟩ } = none := by
  simp [classifyProvider, h]

theorem classifyProvider_some_mode (p : ProviderConfiguration)
    (ks : state.KeyState) (h : classifyProvider p = some ks) :
    ks.Mode = state.AESCBC ∨ ks.Mode = state.SecretBox ∨ ks.Mode = state.Identity := by
  unfold classifyProvider at h
  split at h
  · cases h; exact Or.inl rfl
  · cases h; exact Or.inr (Or.inl rfl)
  · cases h
  · split at h
    · cases h; exact Or.inr (Or.inr rfl)
    · cases h
  · cases h

theorem classifyProvider_some_ne_zero (p : ProviderConfiguration)
    (ks : state.KeyState) (h : classifyProvider p = some ks) :
    ks ≠ state.zeroKeyState := by
  intro hz
  rcases classifyProvider_some_mode p ks h with hm | hm | hm <;>
    (rw [hz] at hm; exact absurd hm (by decide))

theorem enrichFromBacked_ne_zero (bk : List state.KeyState)
    (hbk : ∀ k ∈ bk, k.Backed = true) (ks : state.KeyState)
    (hks : ks ≠ state.zeroKeyState) :
    enrichFromBacked bk ks ≠ state.zeroKeyState := by
  unfold enrichFromBacked
  cases hf : bk.find? (fun k => state.EqualKeyAndEqualID ks k) with
  | none => exact hks
  | some k =>
    intro hz
    have hz' : k = state.zeroKeyState := hz
    have hmem := List.mem_of_find?_eq_some hf
    have := hbk k hmem
    rw [hz'] at this
    exact Bool.noConfusion this

theorem hasWriteKey_set (g : state.GroupResourceState) (ks : state.KeyState) :
    state.GroupResourceState.HasWriteKey { g with WriteKey := ks } =
      decide (ks ≠ state.zeroKeyState) := rfl

/-- When all providers in the list classify to non-Identity keys and the
position is past zero, the provider loop leaves the write key untouched. -/
theorem processProviders_writeKey_no_identity (bk : List state.KeyState) :
    ∀ (ps : List ProviderConfiguration) (i : Nat) (g : state.GroupResourceState),
      1 ≤ i →
      (∀ p ∈ ps, ∀ ks, classifyProvider p = some ks →
        (enrichFromBacked bk ks).Mode ≠ state.Identity) →
      (processProviders bk ps i g).WriteKey = g.WriteKey ∧
        (processProviders bk ps i g).HasWriteKey = g.HasWriteKey
  | [], i, g, hi, hmode => by simp [processProviders]
  | p :: rest, i, g, hi, hmode => by
    rw [processProviders]
    cases hp : classifyProvider p with
    | none =>
      exact processProviders_writeKey_no_identity bk rest (i + 1) g (by omega)
        (fun q hq => hmode q (List.mem_cons_of_mem p hq))
    | some ks0 =>
      simp only []
      have hcond : ¬ (i = 0 ∨ ((enrichFromBacked bk ks0).Mode = state.Identity ∧
          g.HasWriteKey = false)) := by
        rintro (h0 | ⟨hident, _⟩)
        · omega
        · exact hmode p (List.mem_cons_self p rest) ks0 hp hident
      rw [if_neg hcond]
      have := processProviders_writeKey_no_identity bk rest (i + 1)
        { g with ReadKeys := g.ReadKeys ++ [enrichFromBacked bk ks0] } (by omega)
        (fun q hq => hmode q (List.mem_cons_of_mem p hq))
      rw [hasWriteKey_readKeys] at this
      exact this

/-- When no write key is set and the position is past zero, the write key
the provider loop produces is the first decoded Identity-mode key, or stays
as it was when there is none. -/
theorem processProviders_writeKey_first_identity (bk : List state.KeyState) :
    ∀ (ps : List ProviderConfiguration) (i : Nat) (g : state.GroupResourceState),
      1 ≤ i → g.HasWriteKey = false →
      (∀ k ∈ decodedKeys bk ps, k ≠ state.zeroKeyState) →
      (processProviders bk ps i g).WriteKey =
        ((decodedKeys bk ps).find? (fun k => k.Mode == state.Identity)).getD g.WriteKey
  | [], i, g, hi, hg, hnz => by simp [processProviders, decodedKeys]
  | p :: rest, i, g, hi, hg, hnz => by
    rw [processProviders]
    cases hp : classifyProvider p with
    | none =>
      rw [decodedKeys_cons_none bk p rest hp] at hnz ⊢
      exact processProviders_writeKey_first_identity bk rest (i + 1) g (by omega) hg hnz
    | some ks0 =>
      simp only []
      rw [decodedKeys_cons_some bk p rest ks0 hp] at hnz ⊢
      by_cases hmode : (enrichFromBacked bk ks0).Mode = state.Identity
      · have hcond : i = 0 ∨ ((enrichFromBacked bk ks0).Mode = state.Identity ∧
            g.HasWriteKey = false) := Or.inr ⟨hmode, hg⟩
        rw [if_pos hcond]
        have hset : state.GroupResourceState.HasWriteKey
            { { g with WriteKey := enrichFromBacked bk ks0 } with
              ReadKeys := g.ReadKeys ++ [enrichFromBacked bk ks0] } = true := by
          rw [hasWriteKey_readKeys, hasWriteKey_set]
          exact decide_eq_true (hnz _ (List.mem_cons_self _ _))
        have hstable := processProviders_writeKey_stable bk rest (i + 1)
          { { g with WriteKey := enrichFromBacked bk ks0 } with
            ReadKeys := g.ReadKeys ++ [enrichFromBacked bk ks0] } hset (by omega)
        rw [hstable.1]
        have hfind : ((enrichFromBacked bk ks0 :: decodedKeys bk rest).find?
            (fun k => k.Mode == state.Identity)) = some (enrichFromBacked bk ks0) := by
          rw [List.find?_cons_of_pos]
          exact beq_iff_eq.mpr hmode
        rw [hfind]
        rfl
      · have hcond : ¬ (i = 0 ∨ ((enrichFromBacked bk ks0).Mode = state.Identity ∧
            g.HasWriteKey = false)) := by
          rintro (h0 | ⟨hident, _⟩)
          · omega
          · exact hmode hident
        rw [if_neg hcond]
        have hg' : state.GroupResourceState.HasWriteKey
            { g with ReadKeys := g.ReadKeys ++ [enrichFromBacked bk ks0] } = false := by
          rw [hasWriteKey_readKeys]; exact hg
        have := processProviders_writeKey_first_identity bk rest (i + 1)
          { g with ReadKeys := g.ReadKeys ++ [enrichFromBacked bk ks0] } (by omega) hg'
          (fun k hk => hnz k (List.mem_cons_of_mem _ hk))
        rw [this]
        have hfind : ((enrichFromBacked bk ks0 :: decodedKeys bk rest).find?
            (fun k => k.Mode == state.Identity)) =
            (decodedKeys bk rest).find? (fun k => k.Mode == state.Identity) := by
          rw [List.find?_cons_of_neg]
          simp [hmode]
        rw [hfind]

/-! ### Encoder loop characterizations -/

theorem providersLoop_gcm :
    ∀ (ks : List state.KeyState) (i : Nat),
      (providersLoop ks i).2 =
        (ks.filter (fun k => k.Mode == state.Identity)).map
          (fun k => { AESGCM := some ⟨[k.Key]⟩ })
  | [], i => rfl
  | key :: rest, i => by
    rw [providersLoop]
    by_cases h1 : key.Mode = state.AESCBC
    · rw [if_pos h1]
      simp only [List.filter_cons]
      rw [if_neg (by simp [h1, state.AESCBC, state.Identity])]
      exact providersLoop_gcm rest (i + 1)
    · rw [if_neg h1]
      by_cases h2 : key.Mode = state.SecretBox
      · rw [if_pos h2]
        simp only [List.filter_cons]
        rw [if_neg (by simp [h2, state.SecretBox, state.Identity])]
        exact providersLoop_gcm rest (i + 1)
      · rw [if_neg h2]
        by_cases h3 : key.Mode = state.Identity
        · rw [if_pos h3]
          simp only [List.filter_cons]
          rw [if_pos (by simp [h3])]
          simp only [List.map_cons]
          rw [providersLoop_gcm rest (i + 1)]
        · rw [if_neg h3]
          simp only [List.filter_cons]
          rw [if_neg (by simp [h3])]
          exact providersLoop_gcm rest (i + 1)

theorem providersLoop_main_filterMap :
    ∀ (ks : List state.KeyState) (i : Nat),
      (providersLoop ks i).1.filterMap classifyProvider =
        (ks.filter (fun k => k.Mode == state.AESCBC || k.Mode == state.SecretBox)).map
          (fun k => { Key := k.Key, Backed := false, Mode := k.Mode })
  | [], i => rfl
  | key :: rest, i => by
    rw [providersLoop]
    by_cases h1 : key.Mode = state.AESCBC
    · rw [if_pos h1]
      simp only [List.filter_cons]
      rw [if_pos (by simp [h1])]
      simp only [List.map_cons, List.filterMap_cons, classifyProvider_aescbc, h1]
      rw [providersLoop_main_filterMap rest (i + 1)]
    · rw [if_neg h1]
      by_cases h2 : key.Mode = state.SecretBox
      · rw [if_pos h2]
        simp only [List.filter_cons]
        rw [if_pos (by simp [h2])]
        simp only [List.map_cons, List.filterMap_cons, classifyProvider_secretbox, h2]
        rw [providersLoop_main_filterMap rest (i + 1)]
      · rw [if_neg h2]
        by_cases h3 : key.Mode = state.Identity
        · rw [if_pos h3, List.filter_cons_of_neg
            (by simp [h3, state.AESCBC, state.SecretBox, state.Identity])]
          by_cases hi : i = 0
          · rw [if_pos hi]
            simp only [List.singleton_append, List.filterMap_cons,
              classifyProvider_identityConf]
            exact providersLoop_main_filterMap rest (i + 1)
          · rw [if_neg hi]
            simp only [List.nil_append]
            exact providersLoop_main_filterMap rest (i + 1)
        · rw [if_neg h3]
          simp only [List.filter_cons]
          rw [if_neg (by simp [h1, h2])]
          exact providersLoop_main_filterMap rest (i + 1)

theorem providersLoop_main_classify :
    ∀ (ks : List state.KeyState) (i : Nat),
      ∀ p ∈ (providersLoop ks i).1, ∀ k0, classifyProvider p = some k0 →
        k0.Mode = state.AESCBC ∨ k0.Mode = state.SecretBox
  | [], i => by intro p hp; cases hp
  | key :: rest, i => by
    intro p hp k0 hk0
    rw [providersLoop] at hp
    by_cases h1 : key.Mode = state.AESCBC
    · rw [if_pos h1] at hp
      rcases List.mem_cons.mp hp with he | ht
      · rw [he, classifyProvider_aescbc] at hk0
        cases hk0; exact Or.inl rfl
      · exact providersLoop_main_classify rest (i + 1) p ht k0 hk0
    · rw [if_neg h1] at hp
      by_cases h2 : key.Mode = state.SecretBox
      · rw [if_pos h2] at hp
        rcases List.mem_cons.mp hp with he | ht
        · rw [he, classifyProvider_secretbox] at hk0
          cases hk0; exact Or.inr rfl
        · exact providersLoop_main_classify rest (i + 1) p ht k0 hk0
      · rw [if_neg h2] at hp
        by_cases h3 : key.Mode = state.Identity
        · rw [if_pos h3] at hp
          rcases List.mem_append.mp hp with he | ht
          · by_cases hi : i = 0
            · rw [if_pos hi] at he
              rcases List.mem_singleton.mp he with rfl
              rw [classifyProvider_identityConf] at hk0
              cases hk0
            · rw [if_neg hi] at he
              cases he
          · exact providersLoop_main_classify rest (i + 1) p ht k0 hk0
        · rw [if_neg h3] at hp
          exact providersLoop_main_classify rest (i + 1) p hp k0 hk0

/-! ### Lemmas about the write-key dedup and sorting -/

theorem eraseFirstKeyMatch_subset :
    ∀ (l : List state.KeyState) (w x : state.KeyState),
      x ∈ eraseFirstKeyMatch l w → x ∈ l
  | [], w, x => by intro h; cases h
  | k :: rest, w, x => by
    intro h
    rw [eraseFirstKeyMatch] at h
    by_cases he : state.EqualKeyAndEqualID k w
    · rw [if_pos he] at h
      exact List.mem_cons_of_mem k h
    · rw [if_neg he] at h
      rcases List.mem_cons.mp h with rfl | ht
      · exact List.mem_cons_self x rest
      · exact List.mem_cons_of_mem k (eraseFirstKeyMatch_subset rest w x ht)

theorem mem_eraseFirstKeyMatch_or :
    ∀ (l : List state.KeyState) (w x : state.KeyState), x ∈ l →
      x ∈ eraseFirstKeyMatch l w ∨ state.EqualKeyAndEqualID x w = true
  | [], w, x => by intro h; cases h
  | k :: rest, w, x => by
    intro h
    rw [eraseFirstKeyMatch]
    by_cases he : state.EqualKeyAndEqualID k w
    · rw [if_pos he]
      rcases List.mem_cons.mp h with rfl | ht
      · exact Or.inr he
      · exact Or.inl ht
    · rw [if_neg he]
      rcases List.mem_cons.mp h with rfl | ht
      · exact Or.inl (List.mem_cons_self x _)
      · rcases mem_eraseFirstKeyMatch_or rest w x ht with hm | hm
        · exact Or.inl (List.mem_cons_of_mem k hm)
        · exact Or.inr hm

theorem eraseFirstKeyMatch_countP_zero :
    ∀ (l : List state.KeyState) (w : state.KeyState),
      l.countP (fun k => state.EqualKeyAndEqualID k w) ≤ 1 →
      (eraseFirstKeyMatch l w).countP (fun k => state.EqualKeyAndEqualID k w) = 0
  | [], w, h => rfl
  | k :: rest, w, h => by
    rw [eraseFirstKeyMatch]
    rw [List.countP_cons] at h
    by_cases he : state.EqualKeyAndEqualID k w
    · rw [if_pos he]
      rw [if_pos he] at h
      have : rest.countP (fun k => state.EqualKeyAndEqualID k w) = 0 := by omega
      exact this
    · rw [if_neg he, List.countP_cons, if_neg he]
      rw [if_neg he] at h
      have := eraseFirstKeyMatch_countP_zero rest w (by omega)
      omega

theorem keyFinset_writeKeyFront :
    ∀ (l : List state.KeyState) (w : state.KeyState),
      (∃ k ∈ l, state.EqualKeyAndEqualID k w = true) →
      ((w :: eraseFirstKeyMatch l w).map state.KeyState.Key).toFinset =
        (l.map state.KeyState.Key).toFinset
  | [], w, h => by rcases h with ⟨k, hk, _⟩; cases hk
  | k :: rest, w, h => by
    rw [eraseFirstKeyMatch]
    by_cases he : state.EqualKeyAndEqualID k w
    · rw [if_pos he]
      have hkey : k.Key = w.Key := of_decide_eq_true he
      simp [List.toFinset_cons, hkey]
    · rw [if_neg he]
      have h' : ∃ x ∈ rest, state.EqualKeyAndEqualID x w = true := by
        rcases h with ⟨x, hx, hxe⟩
        rcases List.mem_cons.mp hx with rfl | ht
        · exact absurd hxe (by simpa using he)
        · exact ⟨x, ht, hxe⟩
      have ih := keyFinset_writeKeyFront rest w h'
      simp only [List.map_cons, List.toFinset_cons] at ih ⊢
      rw [← ih]
      ext a
      simp only [Finset.mem_insert]
      tauto

/-- Appending the elements satisfying `A` to the elements satisfying its
complement `B` is a permutation of the original list. -/
theorem filter_pair_perm (A B : state.KeyState → Bool) :
    ∀ (l : List state.KeyState), (∀ x ∈ l, B x = !A x) →
      (l.filter A ++ l.filter B).Perm l
  | [], _ => by simp
  | x :: l, h => by
    have hx := h x (List.mem_cons_self x l)
    have ih := filter_pair_perm A B l (fun y hy => h y (List.mem_cons_of_mem x hy))
    by_cases hA : A x = true
    · rw [List.filter_cons_of_pos hA, List.filter_cons_of_neg (by rw [hx, hA]; simp)]
      exact List.Perm.cons x ih
    · have hA' : A x = false := by
        cases hAx : A x
        · rfl
        · exact absurd hAx hA
      have hB : B x = true := by rw [hx, hA']; rfl
      rw [List.filter_cons_of_neg (by simp [hA']), List.filter_cons_of_pos hB]
      exact List.perm_middle.trans (List.Perm.cons x ih)

theorem sortRecentFirst_perm (l : List state.KeyState) :
    (state.SortRecentFirst l).Perm l :=
  List.perm_insertionSort state.recentFirst l

theorem sortRecentFirst_sorted (l : List state.KeyState) :
    List.Sorted state.recentFirst (state.SortRecentFirst l) :=
  List.sorted_insertionSort state.recentFirst l

theorem insertionSort_singleton {α : Type} (r : α → α → Prop) [DecidableRel r] (a : α) :
    List.insertionSort r [a] = [a] := by
  simp [List.insertionSort, List.orderedInsert]

/-! ### Structure of a successful encode -/

theorem encodeAllKeys_subset (S : state.GroupResourceState) :
    ∀ k ∈ encodeAllKeys S, k ∈ S.WriteKey :: S.ReadKeys := by
  intro k hk
  unfold encodeAllKeys at hk
  by_cases hw : S.HasWriteKey
  · rw [if_pos hw] at hk
    rcases List.mem_cons.mp hk with rfl | ht
    · exact List.mem_cons_self _ _
    · exact List.mem_cons_of_mem _ (eraseFirstKeyMatch_subset _ _ _ ht)
  · rw [if_neg hw] at hk
    exact List.mem_cons_of_mem _ hk

theorem stateToProviders_some_shape (S : state.GroupResourceState)
    (ps : List ProviderConfiguration) (h : stateToProviders S = some ps) :
    ∃ p0 ptl,
      ((if S.HasWriteKey then ([] : List ProviderConfiguration)
          else [identityProviderConf]) ++ (providersLoop (encodeAllKeys S) 0).1) =
        p0 :: ptl ∧
      ps = (if p0.Identity = none then (p0 :: ptl) ++ [identityProviderConf]
          else p0 :: ptl) ++ (providersLoop (encodeAllKeys S) 0).2 := by
  unfold stateToProviders at h
  simp only [] at h
  split at h
  · exact absurd h (by simp)
  · next p0 ptl heq =>
    refine ⟨p0, ptl, heq, ?_⟩
    rw [← heq]
    cases h
    rfl

theorem filterMap_gcm_sentinel :
    ∀ (l : List state.KeyState),
      (∀ k ∈ l, k.Key.Secret = emptyStaticIdentityKey) →
      ((l.map (fun k => ({ AESGCM := some ⟨[k.Key]⟩ } : ProviderConfiguration))).filterMap
          classifyProvider) =
        l.map (fun k => { Key := k.Key, Backed := false, Mode := state.Identity })
  | [], _ => rfl
  | k :: rest, h => by
    simp only [List.map_cons, List.filterMap_cons,
      classifyProvider_aesgcm_sentinel k.Key (h k (List.mem_cons_self k rest))]
    rw [filterMap_gcm_sentinel rest (fun x hx => h x (List.mem_cons_of_mem k hx))]

/-- The keys the decoder extracts from a successfully encoded provider list:
first the AESCBC/SecretBox keys of the walked sequence in order, then its
Identity keys in order (as sentinel decodes), provided every Identity key
carries the sentinel secret. -/
theorem encode_then_classify (S : state.GroupResourceState)
    (ps : List ProviderConfiguration) (h : stateToProviders S = some ps)
    (hid : ∀ k ∈ encodeAllKeys S, k.Mode = state.Identity →
      k.Key.Secret = emptyStaticIdentityKey) :
    ps.filterMap classifyProvider =
      ((encodeAllKeys S).filter
          (fun k => k.Mode == state.AESCBC || k.Mode == state.SecretBox)).map
        (fun k => { Key := k.Key, Backed := false, Mode := k.Mode }) ++
      ((encodeAllKeys S).filter (fun k => k.Mode == state.Identity)).map
        (fun k => { Key := k.Key, Backed := false, Mode := state.Identity }) := by
  obtain ⟨p0, ptl, heq, hps⟩ := stateToProviders_some_shape S ps h
  rw [hps, List.filterMap_append]
  have hmain : (p0 :: ptl).filterMap classifyProvider =
      (providersLoop (encodeAllKeys S) 0).1.filterMap classifyProvider := by
    rw [← heq, List.filterMap_append]
    by_cases hw : S.HasWriteKey
    · rw [if_pos hw]; rfl
    · rw [if_neg hw]
      simp [List.filterMap_cons, classifyProvider_identityConf]
  have hfb : ∀ qs : List ProviderConfiguration,
      (if p0.Identity = none then (p0 :: ptl) ++ [identityProviderConf]
        else p0 :: ptl).filterMap classifyProvider =
      (p0 :: ptl).filterMap classifyProvider := by
    intro qs
    split
    · rw [List.filterMap_append]
      simp [List.filterMap_cons, classifyProvider_identityConf]
    · rfl
  rw [hfb [], hmain, providersLoop_main_filterMap, providersLoop_gcm,
    filterMap_gcm_sentinel]
  intro k hk
  have hmem := List.mem_filter.mp hk
  exact hid k hmem.1 (by simpa using hmem.2)

/-! ### Pointwise unfoldings of the encoder loop -/

theorem providersLoop_cons_aescbc (key : state.KeyState) (rest : List state.KeyState)
    (i : Nat) (h : key.Mode = state.AESCBC) :
    providersLoop (key :: rest) i =
      ({ AESCBC := some ⟨[key.Key]⟩ } :: (providersLoop rest (i + 1)).1,
        (providersLoop rest (i + 1)).2) := by
  simp only [providersLoop]
  rw [if_pos h]

theorem providersLoop_cons_secretbox (key : state.KeyState) (rest : List state.KeyState)
    (i : Nat) (h : key.Mode = state.SecretBox) :
    providersLoop (key :: rest) i =
      ({ Secretbox := some ⟨[key.Key]⟩ } :: (providersLoop rest (i + 1)).1,
        (providersLoop rest (i + 1)).2) := by
  simp only [providersLoop]
  rw [if_neg (by rw [h]; decide), if_pos h]

theorem providersLoop_cons_identity (key : state.KeyState) (rest : List state.KeyState)
    (i : Nat) (h : key.Mode = state.Identity) :
    providersLoop (key :: rest) i =
      ((if i = 0 then [identityProviderConf] else []) ++ (providersLoop rest (i + 1)).1,
        { AESGCM := some ⟨[key.Key]⟩ } :: (providersLoop rest (i + 1)).2) := by
  simp only [providersLoop]
  rw [if_neg (by rw [h]; decide), if_neg (by rw [h]; decide), if_pos h]

theorem keyState_mode_ne_zero (k : state.KeyState) (h : k.Mode ≠ "") :
    k ≠ state.zeroKeyState := by
  intro hz
  rw [hz] at h
  exact h rfl

theorem hasWriteKey_true_of (g : state.GroupResourceState)
    (h : g.WriteKey ≠ state.zeroKeyState) : g.HasWriteKey = true :=
  decide_eq_true h

theorem hasWriteKey_empty : ({} : state.GroupResourceState).HasWriteKey = false := by
  decide

theorem encodeAllKeys_of_hasWriteKey (S : state.GroupResourceState)
    (hW : S.HasWriteKey = true) :
    encodeAllKeys S = S.WriteKey :: eraseFirstKeyMatch S.ReadKeys S.WriteKey := by
  unfold encodeAllKeys
  rw [if_pos hW]

/-- Decoding a successfully encoded provider list of a state with a write
key of a valid mode recovers that write key (identity and mode, with the
`Backed` flag cleared), provided Identity keys carry the sentinel secret. -/
theorem decode_writeKey_of_encode (S : state.GroupResourceState)
    (ps : List ProviderConfiguration) (hps : stateToProviders S = some ps)
    (hW : S.HasWriteKey = true)
    (hm : S.WriteKey.Mode = state.AESCBC ∨ S.WriteKey.Mode = state.SecretBox ∨
      S.WriteKey.Mode = state.Identity)
    (hid : ∀ k ∈ encodeAllKeys S, k.Mode = state.Identity →
      k.Key.Secret = emptyStaticIdentityKey) :
    (processProviders [] ps 0 {}).WriteKey =
      { Key := S.WriteKey.Key, Backed := false, Mode := S.WriteKey.Mode } := by
  obtain ⟨p0, ptl, heq, hps2⟩ := stateToProviders_some_shape S ps hps
  rw [if_pos hW, List.nil_append] at heq
  have hall := encodeAllKeys_of_hasWriteKey S hW
  rcases hm with hmA | hmB | hmI
  · rw [hall, providersLoop_cons_aescbc S.WriteKey _ 0 hmA] at heq hps2
    simp only [] at heq hps2
    injection heq with h1 h2
    subst h1
    subst h2
    rw [if_pos (show ({ AESCBC := some ⟨[S.WriteKey.Key]⟩ } :
      ProviderConfiguration).Identity = none from rfl)] at hps2
    rw [hps2]
    simp only [List.cons_append, List.append_assoc]
    simp only [processProviders, classifyProvider_aescbc, enrichFromBacked_nil]
    rw [if_pos (Or.inl trivial)]
    refine ((processProviders_writeKey_stable [] _ _ _ ?_ (by omega)).1).trans ?_
    · exact hasWriteKey_true_of _ (keyState_mode_ne_zero _
        (show state.AESCBC ≠ "" by decide))
    · rw [hmA]
  · rw [hall, providersLoop_cons_secretbox S.WriteKey _ 0 hmB] at heq hps2
    simp only [] at heq hps2
    injection heq with h1 h2
    subst h1
    subst h2
    rw [if_pos (show ({ Secretbox := some ⟨[S.WriteKey.Key]⟩ } :
      ProviderConfiguration).Identity = none from rfl)] at hps2
    rw [hps2]
    simp only [List.cons_append, List.append_assoc]
    simp only [processProviders, classifyProvider_secretbox, enrichFromBacked_nil]
    rw [if_pos (Or.inl trivial)]
    refine ((processProviders_writeKey_stable [] _ _ _ ?_ (by omega)).1).trans ?_
    · exact hasWriteKey_true_of _ (keyState_mode_ne_zero _
        (show state.SecretBox ≠ "" by decide))
    · rw [hmB]
  · have hsec : S.WriteKey.Key.Secret = emptyStaticIdentityKey :=
      hid S.WriteKey (by rw [hall]; exact List.mem_cons_self _ _) hmI
    rw [hall, providersLoop_cons_identity S.WriteKey _ 0 hmI] at heq hps2
    rw [if_pos rfl] at heq hps2
    rw [List.singleton_append] at heq hps2
    simp only [] at heq hps2
    injection heq with h1 h2
    subst h1
    subst h2
    rw [if_neg (by decide : ¬ identityProviderConf.Identity = none)] at hps2
    rw [hps2]
    simp only [List.cons_append]
    simp only [processProviders, classifyProvider_identityConf]
    rw [processProviders_append]
    have hmid := processProviders_writeKey_no_identity []
      (providersLoop (eraseFirstKeyMatch S.ReadKeys S.WriteKey) 1).1 (0 + 1) {}
      (by omega)
      (by
        intro p hp ks hks
        rw [enrichFromBacked_nil]
        rcases providersLoop_main_classify _ 1 p hp ks hks with h | h <;>
          (rw [h]; decide))
    simp only [processProviders, classifyProvider_aesgcm_sentinel S.WriteKey.Key hsec,
      enrichFromBacked_nil]
    rw [if_pos (Or.inr ⟨trivial, hmid.2.trans hasWriteKey_empty⟩)]
    refine ((processProviders_writeKey_stable [] _ _ _ ?_ (by omega)).1).trans ?_
    · exact hasWriteKey_true_of _ (keyState_mode_ne_zero _
        (show state.Identity ≠ "" by decide))
    · rw [hmI]

/-- Decoding a successfully encoded provider list recovers exactly the key
identities of the walked sequence, as a finite set, provided all modes are
valid and Identity keys carry the sentinel secret. -/
theorem decode_readKeys_finset_of_encode (S : state.GroupResourceState)
    (ps : List ProviderConfiguration) (hps : stateToProviders S = some ps)
    (hmodes : ∀ k ∈ encodeAllKeys S, k.Mode = state.AESCBC ∨
      k.Mode = state.SecretBox ∨ k.Mode = state.Identity)
    (hid : ∀ k ∈ encodeAllKeys S, k.Mode = state.Identity →
      k.Key.Secret = emptyStaticIdentityKey) :
    ((ps.filterMap classifyProvider).map state.KeyState.Key).toFinset =
      ((encodeAllKeys S).map state.KeyState.Key).toFinset := by
  rw [encode_then_classify S ps hps hid]
  have hperm : ((encodeAllKeys S).filter
        (fun k => k.Mode == state.AESCBC || k.Mode == state.SecretBox) ++
      (encodeAllKeys S).filter (fun k => k.Mode == state.Identity)).Perm
        (encodeAllKeys S) := by
    apply filter_pair_perm
    intro x hx
    rcases hmodes x hx with h | h | h <;> rw [h] <;> rfl
  have hkeys : (((encodeAllKeys S).filter
        (fun k => k.Mode == state.AESCBC || k.Mode == state.SecretBox)).map
          (fun k => ({ Key := k.Key, Backed := false, Mode := k.Mode } :
            state.KeyState)) ++
      ((encodeAllKeys S).filter (fun k => k.Mode == state.Identity)).map
          (fun k => ({ Key := k.Key, Backed := false, Mode := state.Identity } :
            state.KeyState))).map state.KeyState.Key =
      ((encodeAllKeys S).filter
        (fun k => k.Mode == state.AESCBC || k.Mode == state.SecretBox) ++
      (encodeAllKeys S).filter (fun k => k.Mode == state.Identity)).map
        state.KeyState.Key := by
    rw [List.map_append, List.map_append, List.map_map, List.map_map]
    congr 1
  rw [hkeys]
  exact List.toFinset_eq_of_perm _ _ (hperm.map state.KeyState.Key)

/-! ### Pipeline wrappers for a single resource -/

theorem backedKeysOf_nil : backedKeysOf [] = [] := rfl

theorem stateToProviders_isSome_of_writeKey (S : state.GroupResourceState)
    (hW : S.HasWriteKey = true)
    (hm : S.WriteKey.Mode = state.AESCBC ∨ S.WriteKey.Mode = state.SecretBox ∨
      S.WriteKey.Mode = state.Identity) :
    ∃ ps, stateToProviders S = some ps := by
  unfold stateToProviders
  simp only []
  rw [if_pos hW, List.nil_append, encodeAllKeys_of_hasWriteKey S hW]
  rcases hm with h | h | h
  · rw [providersLoop_cons_aescbc _ _ 0 h]
    exact ⟨_, rfl⟩
  · rw [providersLoop_cons_secretbox _ _ 0 h]
    exact ⟨_, rfl⟩
  · rw [providersLoop_cons_identity _ _ 0 h]
    exact ⟨_, rfl⟩

theorem fromEncryptionState_singleton (r : schema.GroupResource)
    (S : state.GroupResourceState) (ps : List ProviderConfiguration)
    (hps : stateToProviders S = some ps) :
    FromEncryptionState [(r, S)] =
      some ⟨[{ Resources := [r.toString], Providers := ps }]⟩ := by
  unfold FromEncryptionState
  have hrc : resourceConfigsOf [(r, S)] =
      some [{ Resources := [r.toString], Providers := ps }] := by
    unfold resourceConfigsOf
    rw [hps]
    rfl
  rw [hrc, Option.map_some', insertionSort_singleton]

theorem toEncryptionState_single_resource (r : schema.GroupResource)
    (ps : List ProviderConfiguration)
    (hr : schema.ParseGroupResource r.toString = r) :
    ToEncryptionState (some ⟨[{ Resources := [r.toString], Providers := ps }]⟩) [] =
      ([(r, { processProviders [] ps 0 {} with
          ReadKeys :=
            state.SortRecentFirst (processProviders [] ps 0 {}).ReadKeys })], []) := by
  unfold ToEncryptionState
  simp only [backedKeysOf_nil, List.foldl_cons, List.foldl_nil]
  rw [if_neg (by simp)]
  simp only [List.headD_cons]
  rw [hr]
  rfl

theorem mapLookup_single (k : schema.GroupResource) (v : state.GroupResourceState) :
    mapLookup [(k, v)] k = some v := by
  unfold mapLookup
  rw [if_pos rfl]

/-- Claim C1 (amended): for every GroupResourceState with a write key, in
which every key carries a valid mode, every Identity-mode key carries the
fixed sentinel secret, and the write key identity occurs among the read
keys, and for every resource whose identifier parses back to itself,
decoding the encoding of the single-resource map yields an entry with the
same write-key identity and the same set of read-key identities (ignoring
the Backed flag and order). -/
theorem C1_roundtrip_amended (r : schema.GroupResource) (S : state.GroupResourceState)
    (hW : S.HasWriteKey = true)
    (hmodes : ∀ k ∈ S.WriteKey :: S.ReadKeys, k.Mode = state.AESCBC ∨
      k.Mode = state.SecretBox ∨ k.Mode = state.Identity)
    (hid : ∀ k ∈ S.WriteKey :: S.ReadKeys, k.Mode = state.Identity →
      k.Key.Secret = emptyStaticIdentityKey)
    (hWin : ∃ k ∈ S.ReadKeys, state.EqualKeyAndEqualID k S.WriteKey = true)
    (hr : schema.ParseGroupResource r.toString = r) :
    ∃ T, mapLookup (ToEncryptionState (FromEncryptionState [(r, S)]) []).1 r =
        some T ∧
      T.WriteKey.Key = S.WriteKey.Key ∧
      (T.ReadKeys.map state.KeyState.Key).toFinset =
        (S.ReadKeys.map state.KeyState.Key).toFinset := by
  have hWm := hmodes S.WriteKey (List.mem_cons_self _ _)
  obtain ⟨ps, hps⟩ := stateToProviders_isSome_of_writeKey S hW hWm
  rw [fromEncryptionState_singleton r S ps hps,
    toEncryptionState_single_resource r ps hr, mapLookup_single]
  refine ⟨_, rfl, ?_, ?_⟩
  · show (processProviders [] ps 0 {}).WriteKey.Key = S.WriteKey.Key
    rw [decode_writeKey_of_encode S ps hps hW hWm
      (fun k hk => hid k (encodeAllKeys_subset S k hk))]
  · show ((state.SortRecentFirst (processProviders [] ps 0 {}).ReadKeys).map
      state.KeyState.Key).toFinset = (S.ReadKeys.map state.KeyState.Key).toFinset
    have hproc : (processProviders [] ps 0 {}).ReadKeys =
        ps.filterMap classifyProvider := by
      rw [processProviders_readKeys, decodedKeys_nil_backed]
      simp only [List.nil_append]
    rw [hproc]
    have hsort : (((state.SortRecentFirst (ps.filterMap classifyProvider)).map
        state.KeyState.Key).toFinset :) =
        ((ps.filterMap classifyProvider).map state.KeyState.Key).toFinset :=
      List.toFinset_eq_of_perm _ _ ((sortRecentFirst_perm _).map _)
    rw [hsort,
      decode_readKeys_finset_of_encode S ps hps
        (fun k hk => hmodes k (encodeAllKeys_subset S k hk))
        (fun k hk => hid k (encodeAllKeys_subset S k hk)),
      encodeAllKeys_of_hasWriteKey S hW]
    exact keyFinset_writeKeyFront S.ReadKeys S.WriteKey hWin

/-! ### Concrete inputs used by the claim theorems -/

def cexC1S : state.GroupResourceState :=
  { WriteKey := ⟨⟨"k3", "s3"⟩, false, state.AESCBC⟩,
    ReadKeys := [⟨⟨"k3", "s3"⟩, false, state.AESCBC⟩,
      ⟨⟨"k2", "x"⟩, false, state.Identity⟩] }

def c1wS : state.GroupResourceState :=
  { WriteKey := ⟨⟨"k3", "s3"⟩, false, state.AESCBC⟩,
    ReadKeys := [⟨⟨"k3", "s3"⟩, false, state.AESCBC⟩,
      ⟨⟨"k2", emptyStaticIdentityKey⟩, false, state.Identity⟩] }

def c2S : state.GroupResourceState :=
  { WriteKey := ⟨⟨"k1", "s1"⟩, false, "aesgcm"⟩,
    ReadKeys := [⟨⟨"k1", "s1"⟩, false, "aesgcm"⟩] }

def c3cfg : EncryptionConfiguration :=
  ⟨[{ Resources := ["secrets"],
      Providers := [{ AESCBC := some ⟨[⟨"a", "x"⟩, ⟨"b", "y"⟩]⟩ },
        { AESGCM := some ⟨[⟨"k1", emptyStaticIdentityKey⟩]⟩ }] }]⟩

def c3wProv : ProviderConfiguration :=
  { AESCBC := some ⟨[⟨"a", "x"⟩, ⟨"b", "y"⟩]⟩ }

def c3wSent : ProviderConfiguration :=
  { AESGCM := some ⟨[⟨"k9", emptyStaticIdentityKey⟩]⟩ }

def c4S : state.GroupResourceState :=
  { WriteKey := state.zeroKeyState,
    ReadKeys := [⟨⟨"k1", emptyStaticIdentityKey⟩, false, state.Identity⟩] }

def c4sentinel : ProviderConfiguration :=
  { AESGCM := some ⟨[⟨"k1", emptyStaticIdentityKey⟩]⟩ }

def c5S : state.GroupResourceState :=
  { WriteKey := state.zeroKeyState,
    ReadKeys := [⟨⟨"k1", "plainsecret"⟩, false, state.Identity⟩] }

def c5wS : state.GroupResourceState :=
  { WriteKey := state.zeroKeyState,
    ReadKeys := [⟨⟨"k7", emptyStaticIdentityKey⟩, false, state.Identity⟩] }

def c5wPs : List ProviderConfiguration :=
  [identityProviderConf, identityProviderConf,
    { AESGCM := some ⟨[⟨"k7", emptyStaticIdentityKey⟩]⟩ }]

def c6S : state.GroupResourceState :=
  { WriteKey := ⟨⟨"k2", "s2"⟩, false, state.AESCBC⟩,
    ReadKeys := [⟨⟨"k2", "s2"⟩, false, state.AESCBC⟩,
      ⟨⟨"k1", "s1"⟩, false, state.AESCBC⟩] }

def c7S : state.GroupResourceState :=
  { WriteKey := state.zeroKeyState,
    ReadKeys := [⟨⟨"k1", "s1"⟩, false, state.AESCBC⟩] }

def c8St : List (schema.GroupResource × state.GroupResourceState) :=
  [(⟨"", "configmaps"⟩, c7S), (⟨"", "apiservers"⟩, c7S)]

/-! ### Claim theorems -/

/-- Claim C1 (counterexample): the state with write key k3 (AESCBC) and an
Identity read key k2 whose secret is not the sentinel is non-empty and has
a write key, yet the decoded entry's set of read-key identities differs
from the original: the k2 sentinel provider fails the sentinel test on
decode and is dropped. -/
theorem C1_counterexample :
    cexC1S.HasWriteKey = true ∧
    mapLookup (ToEncryptionState (FromEncryptionState
        [(⟨"", "secrets"⟩, cexC1S)]) []).1 ⟨"", "secrets"⟩ =
      some { WriteKey := ⟨⟨"k3", "s3"⟩, false, state.AESCBC⟩,
             ReadKeys := [⟨⟨"k3", "s3"⟩, false, state.AESCBC⟩] } ∧
    ¬ ((([⟨⟨"k3", "s3"⟩, false, state.AESCBC⟩] : List state.KeyState).map
        state.KeyState.Key).toFinset =
      (cexC1S.ReadKeys.map state.KeyState.Key).toFinset) :=
  ⟨by decide, rfl, by decide⟩

/-- Claim C1 (witness): the amended round-trip theorem applied to the
resource `secrets` and a state with an AESCBC write key and a
sentinel-secret Identity read key. -/
theorem C1_roundtrip_witness :
    c1wS.HasWriteKey = true ∧
    (∀ k ∈ c1wS.WriteKey :: c1wS.ReadKeys, k.Mode = state.AESCBC ∨
      k.Mode = state.SecretBox ∨ k.Mode = state.Identity) ∧
    (∀ k ∈ c1wS.WriteKey :: c1wS.ReadKeys, k.Mode = state.Identity →
      k.Key.Secret = emptyStaticIdentityKey) ∧
    (∃ k ∈ c1wS.ReadKeys, state.EqualKeyAndEqualID k c1wS.WriteKey = true) ∧
    schema.ParseGroupResource (schema.GroupResource.toString ⟨"", "secrets"⟩) =
      ⟨"", "secrets"⟩ ∧
    ∃ T, mapLookup (ToEncryptionState (FromEncryptionState
        [(⟨"", "secrets"⟩, c1wS)]) []).1 ⟨"", "secrets"⟩ = some T ∧
      T.WriteKey.Key = c1wS.WriteKey.Key ∧
      (T.ReadKeys.map state.KeyState.Key).toFinset =
        (c1wS.ReadKeys.map state.KeyState.Key).toFinset :=
  ⟨by decide, by decide, by decide, by decide, by decide,
    C1_roundtrip_amended ⟨"", "secrets"⟩ c1wS (by decide) (by decide) (by decide)
      (by decide) (by decide)⟩

/-- Claim C2 (code bug): encoding a state whose only key — the write key —
has an invalid mode skips that key in the loop, leaving the provider slice
empty, and then dereferences `providers[0]`: the Go code panics with an
index-out-of-range instead of returning a best-effort provider list. In
the embedding the panic is the `none` result. -/
theorem C2_invalid_mode_write_key_panics : stateToProviders c2S = none := rfl

/-- Claim C3 (counterexample): position 0 holds an invalid two-key AESCBC
provider — not the skipped no-op placeholder — yet the decoder still
promotes the later Identity-mode sentinel key to write key, where the
claim says the WriteKey must remain unset in that case. -/
theorem C3_counterexample :
    mapLookup (ToEncryptionState (some c3cfg) []).1 ⟨"", "secrets"⟩ =
      some { WriteKey := ⟨⟨"k1", emptyStaticIdentityKey⟩, false, state.Identity⟩,
             ReadKeys := [⟨⟨"k1", emptyStaticIdentityKey⟩, false, state.Identity⟩] } ∧
    (⟨⟨"k1", emptyStaticIdentityKey⟩, false, state.Identity⟩ : state.KeyState) ≠
      state.zeroKeyState :=
  ⟨rfl, by decide⟩

/-- Claim C3 (amended): the key decoded (and enriched) at provider position
0 becomes the write key; when position 0 held any skipped provider — the
no-op placeholder or an invalid shape — the write key is instead the first
Identity-mode key among the remaining decoded keys, and remains unset
(zero) when there is none. -/
theorem C3_write_key_determination_amended (bk : List state.KeyState)
    (hbk : ∀ k ∈ bk, k.Backed = true)
    (p : ProviderConfiguration) (rest : List ProviderConfiguration) :
    (∀ ks, classifyProvider p = some ks →
      (processProviders bk (p :: rest) 0 {}).WriteKey = enrichFromBacked bk ks) ∧
    (classifyProvider p = none →
      (processProviders bk (p :: rest) 0 {}).WriteKey =
        ((decodedKeys bk rest).find? (fun k => k.Mode == state.Identity)).getD
          state.zeroKeyState) := by
  constructor
  · intro ks hks
    rw [processProviders, hks]
    simp only []
    rw [if_pos (Or.inl trivial)]
    refine ((processProviders_writeKey_stable bk _ _ _ ?_ (by omega)).1).trans ?_
    · exact hasWriteKey_true_of _ (enrichFromBacked_ne_zero bk hbk ks
        (classifyProvider_some_ne_zero p ks hks))
    · rfl
  · intro hnone
    rw [processProviders, hnone]
    refine (processProviders_writeKey_first_identity bk rest (0 + 1) {} (by omega)
      hasWriteKey_empty ?_).trans rfl
    intro k hk
    obtain ⟨p', hp', hps'⟩ := List.mem_filterMap.mp hk
    cases hcp : classifyProvider p' with
    | none => rw [hcp] at hps'; cases hps'
    | some ks0 =>
      rw [hcp, Option.map_some'] at hps'
      injection hps' with h
      rw [← h]
      exact enrichFromBacked_ne_zero bk hbk ks0
        (classifyProvider_some_ne_zero p' ks0 hcp)

/-- Claim C3 (witness): the amended write-key determination applied with an
empty backed-key list to an invalid provider at position 0 followed by one
sentinel AESGCM provider. -/
theorem C3_write_key_determination_witness :
    (∀ k ∈ ([] : List state.KeyState), k.Backed = true) ∧
    ((∀ ks, classifyProvider c3wProv = some ks →
      (processProviders [] (c3wProv :: [c3wSent]) 0 {}).WriteKey =
        enrichFromBacked [] ks) ∧
    (classifyProvider c3wProv = none →
      (processProviders [] (c3wProv :: [c3wSent]) 0 {}).WriteKey =
        ((decodedKeys [] [c3wSent]).find? (fun k => k.Mode == state.Identity)).getD
          state.zeroKeyState)) :=
  ⟨by simp, C3_write_key_determination_amended [] (by simp) c3wProv [c3wSent]⟩

/-- Claim C4 (counterexample): the encoder emits a duplicated no-op
placeholder — three providers, not the claimed two — and decoding even the
claimed two-provider list sets the write key to the Identity key k1 rather
than leaving it unset. -/
theorem C4_counterexample :
    stateToProviders c4S =
      some [identityProviderConf, identityProviderConf, c4sentinel] ∧
    some [identityProviderConf, identityProviderConf, c4sentinel] ≠
      some [identityProviderConf, c4sentinel] ∧
    (processProviders [] [identityProviderConf, c4sentinel] 0 {}).WriteKey ≠
      state.zeroKeyState :=
  ⟨rfl, by decide, by decide⟩

/-- Claim C4 (amended): for the resource `secrets` with no write key and a
single Identity read key k1 carrying the sentinel secret, encode produces
exactly [no-op, no-op, sentinel-AESGCM(k1)] — a leading placeholder for the
missing write key plus a second one emitted for the Identity key at walk
position 0 — and decoding that output yields WriteKey set to k1
(Mode=Identity) and ReadKeys equal to [k1 (Mode=Identity)]. -/
theorem C4_scenario_amended :
    FromEncryptionState [(⟨"", "secrets"⟩, c4S)] =
      some ⟨[{ Resources := ["secrets"],
               Providers := [identityProviderConf, identityProviderConf,
                 c4sentinel] }]⟩ ∧
    ToEncryptionState (FromEncryptionState [(⟨"", "secrets"⟩, c4S)]) [] =
      ([(⟨"", "secrets"⟩,
          { WriteKey := ⟨⟨"k1", emptyStaticIdentityKey⟩, false, state.Identity⟩,
            ReadKeys := [⟨⟨"k1", emptyStaticIdentityKey⟩, false,
              state.Identity⟩] })], []) :=
  ⟨rfl, rfl⟩

/-- Claim C5 (counterexample): an Identity-mode key whose stored secret is
not the sentinel is emitted as an AESGCM provider carrying its own secret;
no provider in the encoded output carries that key name with the sentinel
secret. -/
theorem C5_counterexample :
    stateToProviders c5S = some [identityProviderConf, identityProviderConf,
      { AESGCM := some ⟨[⟨"k1", "plainsecret"⟩]⟩ }] ∧
    ∀ p ∈ [identityProviderConf, identityProviderConf,
      ({ AESGCM := some ⟨[⟨"k1", "plainsecret"⟩]⟩ } : ProviderConfiguration)],
      p.AESGCM ≠ some ⟨[⟨"k1", emptyStaticIdentityKey⟩]⟩ :=
  ⟨rfl, by decide⟩

/-- Claim C5 (amended): every Identity-mode read key appears after encode as
an AESGCM provider carrying that key's own name and secret (provided any
read key sharing the write key's identity shares its mode); decoding that
provider yields Mode=Identity with the original name when — and only then —
the carried secret equals the fixed sentinel. -/
theorem C5_sentinel_amended (S : state.GroupResourceState)
    (ps : List ProviderConfiguration) (hps : stateToProviders S = some ps)
    (hdup : S.HasWriteKey = true → ∀ k ∈ S.ReadKeys,
      state.EqualKeyAndEqualID k S.WriteKey = true → k.Mode = S.WriteKey.Mode)
    (k : state.KeyState) (hk : k ∈ S.ReadKeys) (hmode : k.Mode = state.Identity) :
    ({ AESGCM := some ⟨[k.Key]⟩ } : ProviderConfiguration) ∈ ps ∧
    (k.Key.Secret = emptyStaticIdentityKey →
      classifyProvider { AESGCM := some ⟨[k.Key]⟩ } =
        some ⟨k.Key, false, state.Identity⟩) := by
  refine ⟨?_, fun hsec => classifyProvider_aesgcm_sentinel k.Key hsec⟩
  obtain ⟨p0, ptl, heq, hps2⟩ := stateToProviders_some_shape S ps hps
  have hmem : ∃ k' ∈ encodeAllKeys S, k'.Mode = state.Identity ∧ k'.Key = k.Key := by
    by_cases hw : S.HasWriteKey = true
    · rw [encodeAllKeys_of_hasWriteKey S hw]
      rcases mem_eraseFirstKeyMatch_or S.ReadKeys S.WriteKey k hk with hm | hm
      · exact ⟨k, List.mem_cons_of_mem _ hm, hmode, rfl⟩
      · refine ⟨S.WriteKey, List.mem_cons_self _ _, ?_, ?_⟩
        · rw [← hdup hw k hk hm]
          exact hmode
        · exact (of_decide_eq_true hm).symm
    · have hw' : S.HasWriteKey = false := by
        cases hb : S.HasWriteKey
        · rfl
        · exact absurd hb hw
      rw [show encodeAllKeys S = S.ReadKeys from by
        unfold encodeAllKeys; rw [if_neg (by rw [hw']; decide)]]
      exact ⟨k, hk, hmode, rfl⟩
  obtain ⟨k', hk', hk'mode, hk'key⟩ := hmem
  have hgcm : ({ AESGCM := some ⟨[k.Key]⟩ } : ProviderConfiguration) ∈
      (providersLoop (encodeAllKeys S) 0).2 := by
    rw [providersLoop_gcm]
    refine List.mem_map.mpr ⟨k', List.mem_filter.mpr ⟨hk', by simp [hk'mode]⟩, ?_⟩
    rw [hk'key]
  rw [hps2]
  exact List.mem_append_right _ hgcm

/-- Claim C5 (witness): the amended sentinel property applied to a state
with one Identity read key carrying the sentinel secret. -/
theorem C5_sentinel_witness :
    stateToProviders c5wS = some c5wPs ∧
    (c5wS.HasWriteKey = true → ∀ k ∈ c5wS.ReadKeys,
      state.EqualKeyAndEqualID k c5wS.WriteKey = true → k.Mode = c5wS.WriteKey.Mode) ∧
    (({ AESGCM := some ⟨[⟨"k7", emptyStaticIdentityKey⟩]⟩ } :
        ProviderConfiguration) ∈ c5wPs ∧
      (emptyStaticIdentityKey = emptyStaticIdentityKey →
        classifyProvider { AESGCM := some ⟨[⟨"k7", emptyStaticIdentityKey⟩]⟩ } =
          some ⟨⟨"k7", emptyStaticIdentityKey⟩, false, state.Identity⟩)) :=
  ⟨rfl, by decide,
    C5_sentinel_amended c5wS c5wPs rfl (by decide)
      ⟨⟨"k7", emptyStaticIdentityKey⟩, false, state.Identity⟩
      (List.mem_cons_self _ _) rfl⟩

/-- Claim C6: for every state with a write key whose identity occurs at
most once among the read keys (the data model forbids duplicates), the key
sequence the encoder walks has the write key first and contains its
identity exactly once. -/
theorem C6_write_key_first (S : state.GroupResourceState)
    (hW : S.HasWriteKey = true)
    (hdup : S.ReadKeys.countP (fun k => state.EqualKeyAndEqualID k S.WriteKey) ≤ 1) :
    (encodeAllKeys S).head? = some S.WriteKey ∧
    (encodeAllKeys S).countP
      (fun k => state.EqualKeyAndEqualID k S.WriteKey) = 1 := by
  rw [encodeAllKeys_of_hasWriteKey S hW]
  refine ⟨rfl, ?_⟩
  rw [List.countP_cons, eraseFirstKeyMatch_countP_zero S.ReadKeys S.WriteKey hdup,
    if_pos (show state.EqualKeyAndEqualID S.WriteKey S.WriteKey = true from
      decide_eq_true rfl)]

/-- Claim C6 (witness): the walked sequence for a state whose AESCBC write
key occurs once in the read keys. -/
theorem C6_write_key_first_witness :
    c6S.HasWriteKey = true ∧
    c6S.ReadKeys.countP (fun k => state.EqualKeyAndEqualID k c6S.WriteKey) ≤ 1 ∧
    ((encodeAllKeys c6S).head? = some c6S.WriteKey ∧
      (encodeAllKeys c6S).countP
        (fun k => state.EqualKeyAndEqualID k c6S.WriteKey) = 1) :=
  ⟨by decide, by decide, C6_write_key_first c6S (by decide) (by decide)⟩

/-- Claim C7: for every state without a write key, the encoder succeeds and
its first provider is the no-op placeholder. -/
theorem C7_no_write_key_leading_noop (S : state.GroupResourceState)
    (hW : S.HasWriteKey = false) :
    ∃ ps, stateToProviders S = some ps ∧ ps.head? = some identityProviderConf := by
  unfold stateToProviders
  simp only []
  rw [if_neg (by rw [hW]; decide), List.singleton_append]
  exact ⟨_, rfl, rfl⟩

/-- Claim C7 (witness): the leading no-op placeholder for a one-read-key
state without a write key. -/
theorem C7_no_write_key_leading_noop_witness :
    c7S.HasWriteKey = false ∧
    ∃ ps, stateToProviders c7S = some ps ∧ ps.head? = some identityProviderConf :=
  ⟨by decide, C7_no_write_key_leading_noop c7S (by decide)⟩

/-- Claim C8: whenever encode succeeds, the resource entries of its output
are sorted by their single resource identifier string, for every input
list (hence for every iteration order of the resource map). -/
theorem C8_encode_sorted (st : List (schema.GroupResource × state.GroupResourceState))
    (cfg : EncryptionConfiguration) (h : FromEncryptionState st = some cfg) :
    List.Sorted resourceLE cfg.Resources := by
  unfold FromEncryptionState at h
  cases hrc : resourceConfigsOf st with
  | none => rw [hrc] at h; cases h
  | some rcs =>
    rw [hrc, Option.map_some'] at h
    cases h
    exact List.sorted_insertionSort resourceLE rcs

/-- Claim C8 (witness): a two-entry map given in reverse alphabetical order
encodes to entries sorted by resource identifier. -/
theorem C8_encode_sorted_witness :
    (∃ cfg, FromEncryptionState c8St = some cfg) ∧
    ∀ cfg, FromEncryptionState c8St = some cfg → List.Sorted resourceLE cfg.Resources :=
  ⟨⟨_, rfl⟩, fun cfg h => C8_encode_sorted c8St cfg h⟩

/-- Claim C9: decoding with an absent wire configuration returns the empty
resource map together with the backed keys: exactly the records that parse,
each marked Backed, sorted most recent first; records that fail to parse
are skipped without failing the call. -/
theorem C9_decode_nil_config (ss : List secrets.Secret) :
    (ToEncryptionState none ss).1 = [] ∧
    (ToEncryptionState none ss).2.Perm
      (ss.filterMap fun s =>
        match secrets.ToKeyState s with
        | .error _ => none
        | .ok km => some { km with Backed := true }) ∧
    List.Sorted state.recentFirst (ToEncryptionState none ss).2 ∧
    ∀ k ∈ (ToEncryptionState none ss).2, k.Backed = true := by
  refine ⟨rfl, sortRecentFirst_perm _, sortRecentFirst_sorted _, ?_⟩
  intro k hk
  have hk2 : k ∈ ss.filterMap fun s =>
      match secrets.ToKeyState s with
      | .error _ => none
      | .ok km => some { km with Backed := true } :=
    (sortRecentFirst_perm _).mem_iff.mp hk
  obtain ⟨s, hs, heq⟩ := List.mem_filterMap.mp hk2
  revert heq
  cases hts : secrets.ToKeyState s with
  | error m =>
    intro heq
    have heq' : (none : Option state.KeyState) = some k := heq
    cases heq'
  | ok km =>
    intro heq
    have heq' : some { km with Backed := true } = some k := heq
    injection heq' with h
    rw [← h]

/-- Claim C10: during decode, an AESGCM provider carrying exactly one key
whose secret is not the sentinel falls into the invalid branch: it
classifies to no key state and leaves the resource state untouched, so the
key is dropped. -/
theorem C10_aesgcm_nonsentinel_skipped (k : Key)
    (hk : k.Secret ≠ emptyStaticIdentityKey) (bk : List state.KeyState)
    (i : Nat) (g : state.GroupResourceState) :
    classifyProvider { AESGCM := some ⟨[k]⟩ } = none ∧
    processProviders bk [{ AESGCM := some ⟨[k]⟩ }] i g = g := by
  refine ⟨classifyProvider_aesgcm_other k hk, ?_⟩
  rw [processProviders, classifyProvider_aesgcm_other k hk]
  rfl

/-- Claim C10 (witness): a genuine AESGCM key with a non-sentinel secret is
dropped by the decoder. -/
theorem C10_aesgcm_nonsentinel_skipped_witness :
    (("realkeymaterial" : String) ≠ emptyStaticIdentityKey) ∧
    (classifyProvider { AESGCM := some ⟨[⟨"k1", "realkeymaterial"⟩]⟩ } = none ∧
      processProviders [] [{ AESGCM := some ⟨[⟨"k1", "realkeymaterial"⟩]⟩ }] 5 {} =
        {}) :=
  ⟨by decide,
    C10_aesgcm_nonsentinel_skipped ⟨"k1", "realkeymaterial"⟩ (by decide) [] 5 {}⟩
